import Mathlib

/-!
A verification development for the websocket-tools repository.

The backend-agnostic core is shallowly embedded here:

* the bidirectional connection registry of `ws_server_base`
  (src/include/common/ws_server_base.hpp) — two `std::map`s,
  `m_map_from_connection : connection → id` and `m_map_from_id : id → connection`,
  with `add_connection`, `remove_connection`, `find` (both directions), `new_id`,
  `size`;
* the completion synchronizer of `nw_ws_common`
  (src/apple/nw_ws_common.hpp) — the three-valued `completion_modes` flag,
  the backend state-change blocks that drive it, and `wait_for_completion`;
* the create/validate factory `ws_base::create` (src/common/ws_base.hpp);
* the send paths and handler trampolines of `cw_ws_server`
  (src/include/civetweb/cw_ws_server.hpp) and `nw_ws_server`
  (src/apple/nw_ws_server.hpp).

Modelling conventions:

* Native connection handles (`mg_connection *` / `nw_connection_t`) are modelled
  as `Nat`; a handle registered in the maps is a real, non-null pointer.  Where
  the C++ produces a possibly-null handle (the result of `find(id)`, the argument
  of a backend write primitive) we use `Option Nat`, `none` standing for
  `nullptr`.
* `ws_connection_id` is `uintptr_t`; ids are modelled as `Nat`.  The not-found
  sentinel `(ws_connection_id)(-1)` of `find(connection)` is `2 ^ 64 - 1`
  (64-bit `uintptr_t`).
* A `std::map` is an association list with unique keys; `operator[]`,
  `find`, `erase`, `size` are transcribed below.  Every map reachable through
  the public operations has unique keys, so erasing by key-filter coincides with
  `std::map::erase`.
* The `assert(m_map_from_connection.size() == m_map_from_id.size())` checks in
  `add_connection` / `remove_connection` are modelled by the Boolean `assertOk`
  field of the operation result.
-/

namespace WsTools

/-- `(ws_connection_id)(-1)`, the not-found sentinel returned by
`ws_server_base::find(const_connection_type)`, for 64-bit `uintptr_t`. -/
def NOT_FOUND_ID : Nat := 2 ^ 64 - 1

/-! ### std::map as an association list -/

/-- `std::map::find(k)` returning the mapped value, `none` when absent. -/
def mapFind (l : List (Nat × Nat)) (k : Nat) : Option Nat :=
  (l.find? (fun p => p.1 = k)).map (fun p => p.2)

/-- `m[k] = v`: replace the value at `k` when the key is present, insert
`(k, v)` otherwise. -/
def mapInsert (l : List (Nat × Nat)) (k v : Nat) : List (Nat × Nat) :=
  if (l.find? (fun p => p.1 = k)).isSome then
    l.map (fun p => if p.1 = k then (k, v) else p)
  else
    l ++ [(k, v)]

/-- `std::map::erase(k)`.  On a unique-key list (every reachable map) this
removes exactly the entry for `k`. -/
def mapErase (l : List (Nat × Nat)) (k : Nat) : List (Nat × Nat) :=
  l.filter (fun p => p.1 ≠ k)

/-- `m[k]` as used for reading in `remove_connection`: `std::map::operator[]`
returns the mapped value when `k` is present and otherwise value-initialises
(`0` for an integral mapped type) and inserts `(k, 0)`.  Returns the value read
together with the possibly extended map. -/
def mapIndex (l : List (Nat × Nat)) (k : Nat) : Nat × List (Nat × Nat) :=
  match l.find? (fun p => p.1 = k) with
  | some p => (p.2, l)
  | none => (0, l ++ [(k, 0)])

/-! ### The connection registry of `ws_server_base` -/

/-- The two synchronized maps of `ws_server_base`:
`fromConn` is `m_map_from_connection` (connection → id) and
`fromId` is `m_map_from_id` (id → connection). -/
structure Registry where
  fromConn : List (Nat × Nat)
  fromId : List (Nat × Nat)
deriving DecidableEq

/-- A freshly constructed server: both maps empty. -/
def Registry.empty : Registry := ⟨[], []⟩

/-- `ws_server_base::size()`: `m_map_from_connection.size()`. -/
def Registry.size (r : Registry) : Nat := r.fromConn.length

/-- `ws_server_base::find(ws_connection_id)`: returns the connection pointer,
`none` modelling `nullptr` when the id is absent. -/
def Registry.find_id (r : Registry) (i : Nat) : Option Nat := mapFind r.fromId i

/-- `ws_server_base::find(const_connection_type)`: returns the id,
`(ws_connection_id)(-1)` when the connection is absent. -/
def Registry.find_conn (r : Registry) (c : Nat) : Nat :=
  match mapFind r.fromConn c with
  | none => NOT_FOUND_ID
  | some i => i

/-- The probing loop of `ws_server_base::new_id`:
`id = 0; while (find(++id)) {}; return id;` — try `i`, `i+1`, … until a free id
is found, with explicit fuel (the C++ loop is unbounded; `new_id` below supplies
enough fuel to reach the first free id, which exists within
`m_map_from_id.size() + 1` probes). -/
def newIdLoop (r : Registry) : Nat → Nat → Nat
  | 0, i => i
  | fuel + 1, i => if (r.find_id i).isSome then newIdLoop r fuel (i + 1) else i

/-- `ws_server_base::new_id`: smallest id ≥ 1 not present in `m_map_from_id`. -/
def Registry.new_id (r : Registry) : Nat := newIdLoop r (r.fromId.length + 1) 1

/-- Result of a mutating registry operation: the new registry, the returned
`ws_connection_id`, and whether the
`assert(m_map_from_connection.size() == m_map_from_id.size())` condition held. -/
structure OpResult where
  reg : Registry
  ret : Nat
  assertOk : Bool
deriving DecidableEq

/-- `ws_server_base::add_connection(connection)`:
allocate `new_id()`, insert into both maps, assert equal sizes, return the id. -/
def Registry.add_connection (r : Registry) (c : Nat) : OpResult :=
  let i := r.new_id
  let fc := mapInsert r.fromConn c i
  let fi := mapInsert r.fromId i c
  ⟨⟨fc, fi⟩, i, fc.length = fi.length⟩

/-- `ws_server_base::remove_connection(connection)`:
`id = m_map_from_connection[connection]` (`operator[]`, which default-inserts
`0` when the connection is unregistered), erase the connection from
`m_map_from_connection` and the id from `m_map_from_id`, assert equal sizes,
return the id. -/
def Registry.remove_connection (r : Registry) (c : Nat) : OpResult :=
  let read := mapIndex r.fromConn c
  let fc := mapErase read.2 c
  let fi := mapErase r.fromId read.1
  ⟨⟨fc, fi⟩, read.1, fc.length = fi.length⟩

/-- `true` when the connection is a key of `m_map_from_connection`. -/
def Registry.registered (r : Registry) (c : Nat) : Bool :=
  (mapFind r.fromConn c).isSome

/-! ### Registry invariant -/

/-- The well-formedness invariant of the two synchronized maps: unique keys on
both sides, the maps are mutual inverses entry-by-entry, every issued id is
positive, and the maps have equal cardinality. -/
structure Inv (r : Registry) : Prop where
  nodupC : (r.fromConn.map Prod.fst).Nodup
  nodupI : (r.fromId.map Prod.fst).Nodup
  corrCI : ∀ p ∈ r.fromConn, (p.2, p.1) ∈ r.fromId
  corrIC : ∀ p ∈ r.fromId, (p.2, p.1) ∈ r.fromConn
  pos : ∀ p ∈ r.fromConn, 1 ≤ p.2
  sizes : r.fromConn.length = r.fromId.length

/-! ### Operation sequences on the registry -/

/-- One registry mutation, as performed by the server trampolines. -/
inductive Op
  | add (c : Nat)
  | remove (c : Nat)
deriving DecidableEq

/-- Apply one operation to the registry (discarding return value and assert). -/
def applyOp (r : Registry) : Op → Registry
  | .add c => (r.add_connection c).reg
  | .remove c => (r.remove_connection c).reg

/-- Run a sequence of operations from the empty registry. -/
def runOps (ops : List Op) : Registry := ops.foldl applyOp Registry.empty

/-- Validity of an operation sequence exactly as claim C1 states it:
each `remove` is applied to a previously added, still-registered connection
(no condition on `add`). -/
def validSeqFrom (r : Registry) : List Op → Bool
  | [] => true
  | .add c :: rest => validSeqFrom (applyOp r (.add c)) rest
  | .remove c :: rest => r.registered c && validSeqFrom (applyOp r (.remove c)) rest

/-- Validity with the amended side condition: each `remove` targets a
registered connection and each `add` targets a connection not currently
registered (which is how the trampolines use the registry: a native connection
is added once, on accept, and removed once, on close). -/
def validSeqFromA (r : Registry) : List Op → Bool
  | [] => true
  | .add c :: rest => !r.registered c && validSeqFromA (applyOp r (.add c)) rest
  | .remove c :: rest => r.registered c && validSeqFromA (applyOp r (.remove c)) rest

/-! ### Association-list lemmas -/

theorem find?_eq_some_of_mem_nodup {l : List (Nat × Nat)} {k v : Nat}
    (hn : (l.map Prod.fst).Nodup) (hm : (k, v) ∈ l) :
    l.find? (fun p => p.1 = k) = some (k, v) := by
  induction l with
  | nil => cases hm
  | cons a t ih =>
    simp only [List.map_cons, List.nodup_cons] at hn
    rcases List.mem_cons.mp hm with h | h
    · subst h
      exact List.find?_cons_of_pos _ (by simp)
    · have hak : a.1 ≠ k := by
        intro he
        exact hn.1 (he ▸ (List.mem_map.mpr ⟨(k, v), h, rfl⟩))
      rw [List.find?_cons_of_neg _ (by simpa using hak)]
      exact ih hn.2 h

theorem mapFind_eq_some_of_mem {l : List (Nat × Nat)} {k v : Nat}
    (hn : (l.map Prod.fst).Nodup) (hm : (k, v) ∈ l) :
    mapFind l k = some v := by
  unfold mapFind
  rw [find?_eq_some_of_mem_nodup hn hm]
  rfl

theorem mem_of_mapFind_eq_some {l : List (Nat × Nat)} {k v : Nat}
    (h : mapFind l k = some v) : (k, v) ∈ l := by
  unfold mapFind at h
  rcases ho : l.find? (fun p => p.1 = k) with _ | p
  · rw [ho] at h
    cases h
  · rw [ho] at h
    have hp := List.find?_some ho
    have hmem := List.mem_of_find?_eq_some ho
    simp only [decide_eq_true_eq] at hp
    simp only [Option.map_some'] at h
    have : p = (k, v) := by
      cases p
      simp_all
    exact this ▸ hmem

theorem mapFind_eq_none_iff {l : List (Nat × Nat)} {k : Nat} :
    mapFind l k = none ↔ ∀ p ∈ l, p.1 ≠ k := by
  unfold mapFind
  simp only [Option.map_eq_none', List.find?_eq_none, decide_eq_true_eq]

theorem mapFind_isSome_iff {l : List (Nat × Nat)} {k : Nat} :
    (mapFind l k).isSome = true ↔ ∃ p ∈ l, p.1 = k := by
  unfold mapFind
  simp only [Option.isSome_map', List.find?_isSome, decide_eq_true_eq]

theorem mapInsert_of_not_mem {l : List (Nat × Nat)} {k v : Nat}
    (h : ∀ p ∈ l, p.1 ≠ k) : mapInsert l k v = l ++ [(k, v)] := by
  unfold mapInsert
  have : l.find? (fun p => p.1 = k) = none := by
    simp only [List.find?_eq_none, decide_eq_true_eq]
    exact h
  rw [this]
  rfl

theorem mapFind_mapInsert_self (l : List (Nat × Nat)) (k v : Nat) :
    mapFind (mapInsert l k v) k = some v := by
  unfold mapInsert
  by_cases h : (l.find? (fun p => p.1 = k)).isSome = true
  · rw [if_pos h]
    unfold mapFind
    induction l with
    | nil => simp at h
    | cons a t ih =>
      by_cases hk : a.1 = k
      · simp only [List.map_cons, hk, if_pos]
        rw [List.find?_cons_of_pos _ (by simp)]
        rfl
      · simp only [List.map_cons, if_neg hk]
        rw [List.find?_cons_of_neg _ (by simpa using hk)]
        rw [List.find?_cons_of_neg _ (by simpa using hk)] at h
        exact ih h
  · rw [if_neg h]
    unfold mapFind
    rw [List.find?_append]
    have hnone : l.find? (fun p => p.1 = k) = none := by
      cases ho : l.find? (fun p => p.1 = k) with
      | none => rfl
      | some p =>
        rw [ho] at h
        simp at h
    rw [hnone]
    simp

theorem mapErase_of_forall_ne {l : List (Nat × Nat)} {k : Nat}
    (h : ∀ p ∈ l, p.1 ≠ k) : mapErase l k = l := by
  unfold mapErase
  exact List.filter_eq_self.mpr (fun p hp => by simpa using h p hp)

theorem mem_mapErase {l : List (Nat × Nat)} {k : Nat} {p : Nat × Nat} :
    p ∈ mapErase l k ↔ p ∈ l ∧ p.1 ≠ k := by
  unfold mapErase
  simp [List.mem_filter]

theorem length_mapErase_of_mem {l : List (Nat × Nat)} {k v : Nat}
    (hn : (l.map Prod.fst).Nodup) (hm : (k, v) ∈ l) :
    (mapErase l k).length + 1 = l.length := by
  induction l with
  | nil => cases hm
  | cons a t ih =>
    simp only [List.map_cons, List.nodup_cons] at hn
    unfold mapErase
    rcases List.mem_cons.mp hm with h | h
    · subst h
      rw [List.filter_cons_of_neg (by simp)]
      have : mapErase t k = t := mapErase_of_forall_ne (fun p hp he =>
        hn.1 (he ▸ (List.mem_map.mpr ⟨p, hp, rfl⟩)))
      unfold mapErase at this
      rw [this]
      simp
    · have hak : a.1 ≠ k := by
        intro he
        exact hn.1 (he ▸ (List.mem_map.mpr ⟨(k, v), h, rfl⟩))
      rw [List.filter_cons_of_pos (by simpa using hak)]
      have := ih hn.2 h
      unfold mapErase at this
      simp only [List.length_cons]
      omega

theorem keys_nodup_mapErase {l : List (Nat × Nat)} {k : Nat}
    (hn : (l.map Prod.fst).Nodup) : ((mapErase l k).map Prod.fst).Nodup := by
  unfold mapErase
  exact (List.Sublist.map Prod.fst (List.filter_sublist l)).nodup hn

theorem value_unique {l : List (Nat × Nat)} {k v₁ v₂ : Nat}
    (hn : (l.map Prod.fst).Nodup) (h₁ : (k, v₁) ∈ l) (h₂ : (k, v₂) ∈ l) :
    v₁ = v₂ := by
  have e₁ := mapFind_eq_some_of_mem hn h₁
  have e₂ := mapFind_eq_some_of_mem hn h₂
  rw [e₁] at e₂
  exact Option.some.inj e₂

/-! ### Properties of `new_id` -/

theorem newIdLoop_spec (r : Registry) :
    ∀ fuel start, (∃ j, start ≤ j ∧ j < start + fuel ∧ r.find_id j = none) →
      r.find_id (newIdLoop r fuel start) = none ∧
      start ≤ newIdLoop r fuel start ∧
      ∀ j, start ≤ j → j < newIdLoop r fuel start → (r.find_id j).isSome := by
  intro fuel
  induction fuel with
  | zero =>
    intro start h
    obtain ⟨j, hj₁, hj₂, _⟩ := h
    omega
  | succ n ih =>
    intro start h
    have hred : newIdLoop r (n + 1) start =
        if (r.find_id start).isSome then newIdLoop r n (start + 1) else start := rfl
    by_cases hs : (r.find_id start).isSome = true
    · have hstep : newIdLoop r (n + 1) start = newIdLoop r n (start + 1) := by
        rw [hred, if_pos hs]
      obtain ⟨j, hj₁, hj₂, hj₃⟩ := h
      have hjs : j ≠ start := by
        intro he
        rw [he] at hj₃
        rw [hj₃] at hs
        simp at hs
      have hnext : ∃ j, start + 1 ≤ j ∧ j < (start + 1) + n ∧ r.find_id j = none :=
        ⟨j, by omega, by omega, hj₃⟩
      obtain ⟨e₁, e₂, e₃⟩ := ih (start + 1) hnext
      rw [hstep]
      refine ⟨e₁, by omega, ?_⟩
      intro j' hj'₁ hj'₂
      by_cases hje : j' = start
      · exact hje ▸ hs
      · exact e₃ j' (by omega) hj'₂
    · have hnone : r.find_id start = none := by
        cases he : r.find_id start with
        | none => rfl
        | some v =>
          rw [he] at hs
          simp at hs
      have hstep : newIdLoop r (n + 1) start = start := by
        rw [hred, if_neg hs]
      rw [hstep]
      exact ⟨hnone, le_refl _, fun j h₁ h₂ => absurd (lt_of_le_of_lt h₁ h₂) (lt_irrefl _)⟩

theorem exists_free_id (r : Registry) :
    ∃ j, 1 ≤ j ∧ j < 1 + (r.fromId.length + 1) ∧ r.find_id j = none := by
  by_contra hcon
  push_neg at hcon
  have hall : ∀ j, 1 ≤ j → j < r.fromId.length + 2 →
      j ∈ (r.fromId.map Prod.fst).toFinset := by
    intro j h₁ h₂
    have := hcon j h₁ (by omega)
    have hsome : (mapFind r.fromId j).isSome = true := by
      cases he : mapFind r.fromId j with
      | none => exact absurd he this
      | some v => rfl
    obtain ⟨p, hp, hpk⟩ := mapFind_isSome_iff.mp hsome
    exact List.mem_toFinset.mpr (List.mem_map.mpr ⟨p, hp, hpk⟩)
  have hsub : Finset.Icc 1 (r.fromId.length + 1) ⊆ (r.fromId.map Prod.fst).toFinset := by
    intro j hj
    obtain ⟨h₁, h₂⟩ := Finset.mem_Icc.mp hj
    exact hall j h₁ (by omega)
  have hcard := Finset.card_le_card hsub
  have hIcc : (Finset.Icc 1 (r.fromId.length + 1)).card = r.fromId.length + 1 := by
    rw [Nat.card_Icc]
    omega
  have hto : (r.fromId.map Prod.fst).toFinset.card ≤ r.fromId.length := by
    calc (r.fromId.map Prod.fst).toFinset.card
        ≤ (r.fromId.map Prod.fst).length := List.toFinset_card_le _
      _ = r.fromId.length := List.length_map _ _
  omega

theorem new_id_spec (r : Registry) :
    r.find_id r.new_id = none ∧ 1 ≤ r.new_id ∧
      ∀ j, 1 ≤ j → j < r.new_id → (r.find_id j).isSome := by
  exact newIdLoop_spec r (r.fromId.length + 1) 1 (exists_free_id r)

theorem new_id_le (r : Registry) {j : Nat} (h₁ : 1 ≤ j) (h₂ : r.find_id j = none) :
    r.new_id ≤ j := by
  by_contra hcon
  push_neg at hcon
  have := (new_id_spec r).2.2 j h₁ hcon
  rw [h₂] at this
  simp at this

/-! ### Invariant preservation -/

theorem inv_empty : Inv Registry.empty :=
  ⟨List.nodup_nil, List.nodup_nil,
   fun p h => absurd h (List.not_mem_nil p),
   fun p h => absurd h (List.not_mem_nil p),
   fun p h => absurd h (List.not_mem_nil p), rfl⟩

theorem registered_iff {r : Registry} {c : Nat} :
    r.registered c = true ↔ ∃ i, (c, i) ∈ r.fromConn := by
  unfold Registry.registered
  rw [mapFind_isSome_iff]
  constructor
  · rintro ⟨p, hp, hpk⟩
    exact ⟨p.2, by rwa [← hpk, Prod.mk.eta]⟩
  · rintro ⟨i, hi⟩
    exact ⟨(c, i), hi, rfl⟩

theorem add_maps {r : Registry} {c : Nat}
    (hfresh : r.registered c = false) :
    (r.add_connection c).reg.fromConn = r.fromConn ++ [(c, r.new_id)] ∧
    (r.add_connection c).reg.fromId = r.fromId ++ [(r.new_id, c)] := by
  have hc : ∀ p ∈ r.fromConn, p.1 ≠ c := by
    intro p hp he
    have : r.registered c = true := by
      unfold Registry.registered
      exact mapFind_isSome_iff.mpr ⟨p, hp, he⟩
    rw [hfresh] at this
    cases this
  have hi : ∀ p ∈ r.fromId, p.1 ≠ r.new_id := by
    intro p hp he
    have hfree := (new_id_spec r).1
    unfold Registry.find_id at hfree
    have := mapFind_eq_none_iff.mp hfree p hp
    exact this he
  constructor
  · show mapInsert r.fromConn c r.new_id = r.fromConn ++ [(c, r.new_id)]
    exact mapInsert_of_not_mem hc
  · show mapInsert r.fromId r.new_id c = r.fromId ++ [(r.new_id, c)]
    exact mapInsert_of_not_mem hi

theorem inv_add {r : Registry} (hInv : Inv r) {c : Nat}
    (hfresh : r.registered c = false) :
    Inv (r.add_connection c).reg := by
  obtain ⟨hfc, hfi⟩ := add_maps hfresh
  have hc : ∀ p ∈ r.fromConn, p.1 ≠ c := by
    intro p hp he
    have : r.registered c = true := by
      unfold Registry.registered
      exact mapFind_isSome_iff.mpr ⟨p, hp, he⟩
    rw [hfresh] at this
    cases this
  have hi : ∀ p ∈ r.fromId, p.1 ≠ r.new_id := by
    intro p hp he
    have hfree := (new_id_spec r).1
    unfold Registry.find_id at hfree
    exact mapFind_eq_none_iff.mp hfree p hp he
  refine ⟨?_, ?_, ?_, ?_, ?_, ?_⟩
  · rw [hfc]
    simp only [List.map_append, List.map_cons, List.map_nil]
    rw [List.nodup_append]
    refine ⟨hInv.nodupC, List.nodup_singleton _, ?_⟩
    intro a ha hb
    simp only [List.mem_singleton] at hb
    obtain ⟨p, hp, hpk⟩ := List.mem_map.mp ha
    exact hc p hp (hpk.trans hb)
  · rw [hfi]
    simp only [List.map_append, List.map_cons, List.map_nil]
    rw [List.nodup_append]
    refine ⟨hInv.nodupI, List.nodup_singleton _, ?_⟩
    intro a ha hb
    simp only [List.mem_singleton] at hb
    obtain ⟨p, hp, hpk⟩ := List.mem_map.mp ha
    exact hi p hp (hpk.trans hb)
  · intro p hp
    rw [hfc] at hp
    rw [hfi]
    rcases List.mem_append.mp hp with h | h
    · exact List.mem_append.mpr (Or.inl (hInv.corrCI p h))
    · simp only [List.mem_singleton] at h
      subst h
      simp
  · intro p hp
    rw [hfi] at hp
    rw [hfc]
    rcases List.mem_append.mp hp with h | h
    · exact List.mem_append.mpr (Or.inl (hInv.corrIC p h))
    · simp only [List.mem_singleton] at h
      subst h
      simp
  · intro p hp
    rw [hfc] at hp
    rcases List.mem_append.mp hp with h | h
    · exact hInv.pos p h
    · simp only [List.mem_singleton] at h
      subst h
      exact (new_id_spec r).2.1
  · rw [hfc, hfi]
    simp only [List.length_append, List.length_cons, List.length_nil]
    have := hInv.sizes
    omega

theorem remove_maps {r : Registry} (hInv : Inv r) {c i : Nat}
    (hm : (c, i) ∈ r.fromConn) :
    (r.remove_connection c).reg.fromConn = mapErase r.fromConn c ∧
    (r.remove_connection c).reg.fromId = mapErase r.fromId i ∧
    (r.remove_connection c).ret = i := by
  have hfind := find?_eq_some_of_mem_nodup hInv.nodupC hm
  unfold Registry.remove_connection mapIndex
  rw [hfind]
  exact ⟨rfl, rfl, rfl⟩

theorem inv_remove {r : Registry} (hInv : Inv r) {c i : Nat}
    (hm : (c, i) ∈ r.fromConn) :
    Inv (r.remove_connection c).reg := by
  obtain ⟨hfc, hfi, _⟩ := remove_maps hInv hm
  have hmi : (i, c) ∈ r.fromId := hInv.corrCI (c, i) hm
  refine ⟨?_, ?_, ?_, ?_, ?_, ?_⟩
  · rw [hfc]
    exact keys_nodup_mapErase hInv.nodupC
  · rw [hfi]
    exact keys_nodup_mapErase hInv.nodupI
  · intro p hp
    rw [hfc] at hp
    rw [hfi, mem_mapErase]
    obtain ⟨hpl, hpne⟩ := mem_mapErase.mp hp
    refine ⟨hInv.corrCI p hpl, ?_⟩
    intro he
    have : p.1 = c := by
      have h₁ : ((p.2 : Nat), p.1) ∈ r.fromId := hInv.corrCI p hpl
      have h₂ : p.2 = i := he
      rw [h₂] at h₁
      exact value_unique hInv.nodupI h₁ hmi
    exact hpne this
  · intro p hp
    rw [hfi] at hp
    rw [hfc, mem_mapErase]
    obtain ⟨hpl, hpne⟩ := mem_mapErase.mp hp
    refine ⟨hInv.corrIC p hpl, ?_⟩
    intro he
    have : p.1 = i := by
      have h₁ : ((p.2 : Nat), p.1) ∈ r.fromConn := hInv.corrIC p hpl
      have h₂ : p.2 = c := he
      rw [h₂] at h₁
      exact value_unique hInv.nodupC h₁ hm
    exact hpne this
  · intro p hp
    rw [hfc] at hp
    exact hInv.pos p (mem_mapErase.mp hp).1
  · rw [hfc, hfi]
    have h₁ := length_mapErase_of_mem hInv.nodupC hm
    have h₂ := length_mapErase_of_mem hInv.nodupI hmi
    have := hInv.sizes
    omega

/-! ### Derived registry facts -/

theorem inv_find_conn {r : Registry} (hInv : Inv r) {p : Nat × Nat}
    (hp : p ∈ r.fromConn) : r.find_conn p.1 = p.2 := by
  have : mapFind r.fromConn p.1 = some p.2 :=
    mapFind_eq_some_of_mem hInv.nodupC (by rwa [Prod.mk.eta])
  unfold Registry.find_conn
  rw [this]

theorem inv_find_id {r : Registry} (hInv : Inv r) {p : Nat × Nat}
    (hp : p ∈ r.fromConn) : r.find_id p.2 = some p.1 := by
  have hmem : (p.2, p.1) ∈ r.fromId := hInv.corrCI p hp
  exact mapFind_eq_some_of_mem hInv.nodupI hmem

theorem inv_run {r : Registry} (hInv : Inv r) :
    ∀ ops, validSeqFromA r ops = true → Inv (ops.foldl applyOp r) := by
  intro ops
  induction ops generalizing r with
  | nil => intro _; exact hInv
  | cons op rest ih =>
    intro hv
    cases op with
    | add c =>
      simp only [validSeqFromA, Bool.and_eq_true, Bool.not_eq_true'] at hv
      exact ih (inv_add hInv hv.1) hv.2
    | remove c =>
      simp only [validSeqFromA, Bool.and_eq_true] at hv
      obtain ⟨i, hi⟩ := registered_iff.mp hv.1
      exact ih (inv_remove hInv hi) hv.2

theorem validSeqFromA_take {r : Registry} :
    ∀ ops n, validSeqFromA r ops = true → validSeqFromA r (ops.take n) = true := by
  intro ops
  induction ops generalizing r with
  | nil =>
    intro n _
    simp [validSeqFromA]
  | cons op rest ih =>
    intro n hv
    cases n with
    | zero => rfl
    | succ m =>
      cases op with
      | add c =>
        simp only [validSeqFromA, Bool.and_eq_true, Bool.not_eq_true'] at hv
        simp only [List.take_succ_cons, validSeqFromA, Bool.and_eq_true,
          Bool.not_eq_true']
        exact ⟨hv.1, ih m hv.2⟩
      | remove c =>
        simp only [validSeqFromA, Bool.and_eq_true] at hv
        simp only [List.take_succ_cons, validSeqFromA, Bool.and_eq_true]
        exact ⟨hv.1, ih m hv.2⟩

/-- A concrete registry with three registered connections (native handles
10, 20, 30 holding ids 1, 2, 3), as produced by
`runOps [.add 10, .add 20, .add 30]`. -/
def sampleReg : Registry :=
  ⟨[(10, 1), (20, 2), (30, 3)], [(1, 10), (2, 20), (3, 30)]⟩

/-! ### Claim C1 -/

/-- C1 counterexample: the claim as stated admits every sequence whose removes
hit registered connections, with no condition on adds.  The sequence
`[add 1, add 1]` is such a sequence, yet after the second operation
`m_map_from_connection` has 1 entry while `m_map_from_id` has 2 (and the
size assertion inside `add_connection` fails). -/
theorem C1_counterexample :
    validSeqFrom Registry.empty [Op.add 1, Op.add 1] = true ∧
    (runOps [Op.add 1, Op.add 1]).fromConn.length ≠
      (runOps [Op.add 1, Op.add 1]).fromId.length ∧
    ((runOps [Op.add 1]).add_connection 1).assertOk = false := by
  decide

/-- C1 (amended): for every sequence of `add_connection`/`remove_connection`
operations in which each remove is applied to a registered connection and each
add to a connection not currently registered, after every operation the two
maps have equal size and, for every registered entry,
`find(find(connection)) == connection` and `find(find(id)) == id`. -/
theorem C1_registry_bijection (ops : List Op) (n : Nat)
    (hv : validSeqFromA Registry.empty ops = true) :
    (runOps (ops.take n)).fromConn.length = (runOps (ops.take n)).fromId.length ∧
    (∀ p ∈ (runOps (ops.take n)).fromConn,
      (runOps (ops.take n)).find_id ((runOps (ops.take n)).find_conn p.1) = some p.1) ∧
    (∀ p ∈ (runOps (ops.take n)).fromId,
      (runOps (ops.take n)).find_id p.1 = some p.2 ∧
      (runOps (ops.take n)).find_conn p.2 = p.1) := by
  have hInv : Inv (runOps (ops.take n)) :=
    inv_run inv_empty (ops.take n) (validSeqFromA_take ops n hv)
  refine ⟨hInv.sizes, ?_, ?_⟩
  · intro p hp
    rw [inv_find_conn hInv hp]
    exact inv_find_id hInv hp
  · intro p hp
    have hc : (p.2, p.1) ∈ (runOps (ops.take n)).fromConn := hInv.corrIC p hp
    exact ⟨inv_find_id hInv hc, inv_find_conn hInv hc⟩

/-- C1 witness: the amended hypothesis holds of a concrete three-operation
sequence, and the bijection facts follow by the theorem. -/
theorem C1_witness :
    validSeqFromA Registry.empty [Op.add 10, Op.add 20, Op.remove 10] = true ∧
    (runOps [Op.add 10, Op.add 20, Op.remove 10]).fromConn.length =
      (runOps [Op.add 10, Op.add 20, Op.remove 10]).fromId.length := by
  refine ⟨by decide, ?_⟩
  have h := C1_registry_bijection [Op.add 10, Op.add 20, Op.remove 10] 3 (by decide)
  simpa using h.1

/-! ### Claim C2 -/

/-- C2: `add_connection(connection)` allocates the smallest positive id not
already present in the id→connection map (linear probing from 1 upward), never
returns id 0, inserts the pair into both maps, and afterwards
`find(id) == connection` and `find(connection) == id`, for every registry
state (in this model the probing scan always finds a free id). -/
theorem C2_add_connection_spec (r : Registry) (c : Nat) :
    1 ≤ (r.add_connection c).ret ∧
    (r.add_connection c).ret ≠ 0 ∧
    r.find_id (r.add_connection c).ret = none ∧
    (∀ j, 1 ≤ j → r.find_id j = none → (r.add_connection c).ret ≤ j) ∧
    (r.add_connection c).reg.find_id (r.add_connection c).ret = some c ∧
    (r.add_connection c).reg.find_conn c = (r.add_connection c).ret := by
  obtain ⟨hfree, hpos, hmin⟩ := new_id_spec r
  have hret : (r.add_connection c).ret = r.new_id := rfl
  refine ⟨?_, ?_, ?_, ?_, ?_, ?_⟩
  · rw [hret]
    exact hpos
  · rw [hret]
    omega
  · rw [hret]
    exact hfree
  · intro j h₁ h₂
    rw [hret]
    exact new_id_le r h₁ h₂
  · have : mapFind (r.add_connection c).reg.fromId (r.add_connection c).ret = some c :=
      mapFind_mapInsert_self r.fromId r.new_id c
    exact this
  · have : mapFind (r.add_connection c).reg.fromConn c = some r.new_id :=
      mapFind_mapInsert_self r.fromConn c r.new_id
    unfold Registry.find_conn
    rw [this]
    exact hret.symm

/-- C2 witness: adding handle 40 to the concrete registry (ids 1, 2, 3 in
use) allocates id 4 — positive, smallest free (in particular no larger than
the free id 4), and looked up both ways afterwards. -/
theorem C2_witness :
    1 ≤ (sampleReg.add_connection 40).ret ∧
    sampleReg.find_id 4 = none ∧
    (sampleReg.add_connection 40).ret ≤ 4 ∧
    (sampleReg.add_connection 40).reg.find_id (sampleReg.add_connection 40).ret =
      some 40 ∧
    (sampleReg.add_connection 40).reg.find_conn 40 =
      (sampleReg.add_connection 40).ret := by
  have h := C2_add_connection_spec sampleReg 40
  exact ⟨h.1, by decide, h.2.2.2.1 4 (by decide) (by decide),
    h.2.2.2.2.1, h.2.2.2.2.2⟩

/-! ### Claim C3 -/

/-- C3: for a registered connection `c` holding id `i`, `remove_connection c`
returns `i`, erases the entry from both maps, decrements `size()` by one, and
afterwards `find(c)` reports not-found; the freed id is free again
(`find_id i = none`), the next allocation probes no further than `i`, and if
no smaller id is free a subsequent `add_connection` reissues exactly `i`. -/
theorem C3_remove_connection_spec (r : Registry) (c i : Nat) (hInv : Inv r)
    (hm : (c, i) ∈ r.fromConn) :
    (r.remove_connection c).ret = i ∧
    (r.remove_connection c).reg.size + 1 = r.size ∧
    (r.remove_connection c).reg.find_conn c = NOT_FOUND_ID ∧
    (r.remove_connection c).reg.find_id i = none ∧
    (∀ p, p ∈ (r.remove_connection c).reg.fromConn ↔ p ∈ r.fromConn ∧ p.1 ≠ c) ∧
    (∀ p, p ∈ (r.remove_connection c).reg.fromId ↔ p ∈ r.fromId ∧ p.1 ≠ i) ∧
    (r.remove_connection c).reg.new_id ≤ i ∧
    ((∀ j, 1 ≤ j → j < i → ((r.remove_connection c).reg.find_id j).isSome) →
      ∀ c', ((r.remove_connection c).reg.add_connection c').ret = i) := by
  obtain ⟨hfc, hfi, hret⟩ := remove_maps hInv hm
  have hmi : (i, c) ∈ r.fromId := hInv.corrCI (c, i) hm
  have hpos : 1 ≤ i := hInv.pos (c, i) hm
  have hfindc : mapFind (r.remove_connection c).reg.fromConn c = none := by
    rw [hfc]
    exact mapFind_eq_none_iff.mpr (fun p hp => (mem_mapErase.mp hp).2)
  have hfindi : (r.remove_connection c).reg.find_id i = none := by
    show mapFind (r.remove_connection c).reg.fromId i = none
    rw [hfi]
    exact mapFind_eq_none_iff.mpr (fun p hp => (mem_mapErase.mp hp).2)
  have hle : (r.remove_connection c).reg.new_id ≤ i :=
    new_id_le _ hpos hfindi
  refine ⟨hret, ?_, ?_, hfindi, ?_, ?_, hle, ?_⟩
  · show (r.remove_connection c).reg.fromConn.length + 1 = r.fromConn.length
    rw [hfc]
    exact length_mapErase_of_mem hInv.nodupC hm
  · unfold Registry.find_conn
    rw [hfindc]
  · intro p
    rw [hfc]
    exact mem_mapErase
  · intro p
    rw [hfi]
    exact mem_mapErase
  · intro hocc c'
    obtain ⟨hfree', hpos', hmin'⟩ := new_id_spec (r.remove_connection c).reg
    have hge : i ≤ (r.remove_connection c).reg.new_id := by
      by_contra hlt
      push_neg at hlt
      have := hocc _ hpos' hlt
      rw [hfree'] at this
      simp at this
    have : (r.remove_connection c).reg.new_id = i := le_antisymm hle hge
    exact this ▸ rfl

/-- C3 witness: removing the connection with handle 20 (id 2) from a concrete
three-connection registry returns 2, shrinks the registry to two entries, and
a subsequent `add_connection` reissues id 2. -/
theorem C3_witness :
    Inv sampleReg ∧ (20, 2) ∈ sampleReg.fromConn ∧
    (sampleReg.remove_connection 20).ret = 2 ∧
    (sampleReg.remove_connection 20).reg.size + 1 = sampleReg.size ∧
    (sampleReg.remove_connection 20).reg.find_conn 20 = NOT_FOUND_ID ∧
    ((sampleReg.remove_connection 20).reg.add_connection 40).ret = 2 := by
  have hInv : Inv sampleReg := by
    refine ⟨?_, ?_, ?_, ?_, ?_, ?_⟩ <;> decide
  have hm : (20, 2) ∈ sampleReg.fromConn := by decide
  have h := C3_remove_connection_spec sampleReg 20 2 hInv hm
  exact ⟨hInv, hm, h.1, h.2.1, h.2.2.1,
    h.2.2.2.2.2.2.2 (by decide) 40⟩

/-! ### Claim C4 -/

/-- C4 counterexample: calling `remove_connection` with an unregistered
connection (handle 5, empty registry) does not trip the size assertion: it
returns id 0 and leaves the registry unchanged, and `find` simply returns the
`(ws_connection_id)(-1)` sentinel; neither call is detected as an invariant
breach. -/
theorem C4_counterexample :
    (Registry.empty.remove_connection 5).assertOk = true ∧
    (Registry.empty.remove_connection 5).ret = 0 ∧
    (Registry.empty.remove_connection 5).reg = Registry.empty ∧
    Registry.empty.find_conn 5 = NOT_FOUND_ID := by
  decide

/-- C4 (amended): calling `remove_connection` or `find` with an unregistered
native connection is NOT detected as an assertion failure.  `find` returns the
`(ws_connection_id)(-1)` not-found sentinel; `remove_connection` default-
inserts id 0 via `operator[]`, erases it again, leaves the registry unchanged,
passes its size assertion, and returns 0. -/
theorem C4_unregistered_remove (r : Registry) (c : Nat) (hInv : Inv r)
    (hfresh : r.registered c = false) :
    r.find_conn c = NOT_FOUND_ID ∧
    (r.remove_connection c).assertOk = true ∧
    (r.remove_connection c).ret = 0 ∧
    (r.remove_connection c).reg = r := by
  have hnone : mapFind r.fromConn c = none := by
    unfold Registry.registered at hfresh
    cases he : mapFind r.fromConn c with
    | none => rfl
    | some v =>
      rw [he] at hfresh
      simp at hfresh
  have hks : ∀ p ∈ r.fromConn, p.1 ≠ c := mapFind_eq_none_iff.mp hnone
  have hfind? : r.fromConn.find? (fun p => p.1 = c) = none := by
    simp only [List.find?_eq_none, decide_eq_true_eq]
    exact hks
  have hidx : mapIndex r.fromConn c = (0, r.fromConn ++ [(c, 0)]) := by
    unfold mapIndex
    rw [hfind?]
  have hfcz : mapErase (r.fromConn ++ [(c, 0)]) c = r.fromConn := by
    unfold mapErase
    rw [List.filter_append]
    have h₁ : r.fromConn.filter (fun p => decide (p.1 ≠ c)) = r.fromConn :=
      List.filter_eq_self.mpr (fun p hp => by simpa using hks p hp)
    have h₂ : ([((c : Nat), (0 : Nat))]).filter (fun p => decide (p.1 ≠ c)) = [] := by
      simp
    rw [h₁, h₂, List.append_nil]
  have hfiz : mapErase r.fromId 0 = r.fromId := by
    apply mapErase_of_forall_ne
    intro p hp he
    have hmc : ((p.2 : Nat), p.1) ∈ r.fromConn := hInv.corrIC p hp
    have := hInv.pos _ hmc
    simp only at this
    omega
  have hrw : r.remove_connection c =
      ⟨⟨mapErase (r.fromConn ++ [(c, 0)]) c, mapErase r.fromId 0⟩, 0,
        decide ((mapErase (r.fromConn ++ [(c, 0)]) c).length =
          (mapErase r.fromId 0).length)⟩ := by
    unfold Registry.remove_connection
    rw [hidx]
  refine ⟨?_, ?_, ?_, ?_⟩
  · unfold Registry.find_conn
    rw [hnone]
  · rw [hrw]
    show decide _ = true
    rw [hfcz, hfiz]
    exact decide_eq_true hInv.sizes
  · rw [hrw]
  · rw [hrw]
    show (⟨mapErase (r.fromConn ++ [(c, 0)]) c, mapErase r.fromId 0⟩ : Registry) = r
    rw [hfcz, hfiz]

/-- C4 witness: the amended behaviour at a concrete registry and an
unregistered handle 99. -/
theorem C4_witness :
    Inv sampleReg ∧ sampleReg.registered 99 = false ∧
    sampleReg.find_conn 99 = NOT_FOUND_ID ∧
    (sampleReg.remove_connection 99).assertOk = true ∧
    (sampleReg.remove_connection 99).reg = sampleReg := by
  have hInv : Inv sampleReg := by
    refine ⟨?_, ?_, ?_, ?_, ?_, ?_⟩ <;> decide
  have hfresh : sampleReg.registered 99 = false := by decide
  have h := C4_unregistered_remove sampleReg 99 hInv hfresh
  exact ⟨hInv, hfresh, h.1, h.2.1, h.2.2.2⟩

/-! ### The completion synchronizer of `nw_ws_common` -/

/-- `nw_ws_common::completion_modes`. -/
inductive CompletionMode
  | connecting
  | ready
  | closed
deriving DecidableEq

/-- The `nw_connection_state_t` / `nw_listener_state_t` values the state-change
blocks test.  `stOther` covers every remaining state (preparing, setup, …),
which the blocks ignore. -/
inductive NwEvent
  | stReady
  | stWaiting
  | stCancelled
  | stFailed
  | stOther
deriving DecidableEq

/-- The effect of one backend state-change callback on `m_mode`, transcribing
the `listener_state_block` of `nw_ws_server` and the state blocks of
`nw_ws_client`: `ready` stores `completion_modes::ready`,
`cancelled`/`failed` store `completion_modes::closed`, `waiting` only cancels
the native object (no store), all other states are ignored. -/
def stateBlockStep (m : CompletionMode) (e : NwEvent) : CompletionMode :=
  match e with
  | .stReady => .ready
  | .stCancelled => .closed
  | .stFailed => .closed
  | .stWaiting => m
  | .stOther => m

/-- `m_mode` after a sequence of backend state-change callbacks, starting from
the initial value `connecting`. -/
def runBlocks (evts : List NwEvent) : CompletionMode :=
  evts.foldl stateBlockStep .connecting

/-- The Network-framework contract that `cancelled` and `failed` are terminal
connection/listener states: no state-change callback is delivered after them
(so they can only occupy the final position of an event sequence). -/
def TerminalLast (evts : List NwEvent) : Prop :=
  ∀ n, n < evts.length → ∀ e ∈ evts.take n,
    ¬(e = NwEvent.stCancelled ∨ e = NwEvent.stFailed)

instance (evts : List NwEvent) : Decidable (TerminalLast evts) := by
  unfold TerminalLast
  exact inferInstance

/-- The transitions claim C5 allows for the completion flag. -/
def allowedTransition (a b : CompletionMode) : Prop :=
  a = b ∨
  (a = .connecting ∧ b = .ready) ∨
  (a = .connecting ∧ b = .closed) ∨
  (a = .ready ∧ b = .closed)

theorem closed_has_terminal :
    ∀ (l : List NwEvent) (m : CompletionMode), l.foldl stateBlockStep m = .closed →
      m = .closed ∨ ∃ e ∈ l, e = NwEvent.stCancelled ∨ e = NwEvent.stFailed := by
  intro l
  induction l with
  | nil =>
    intro m h
    exact Or.inl h
  | cons a t ih =>
    intro m h
    have h' : t.foldl stateBlockStep (stateBlockStep m a) = .closed := h
    rcases ih (stateBlockStep m a) h' with hstep | ⟨e, he, hterm⟩
    · cases a with
      | stReady => cases hstep
      | stCancelled => exact Or.inr ⟨.stCancelled, List.mem_cons_self _ _, Or.inl rfl⟩
      | stFailed => exact Or.inr ⟨.stFailed, List.mem_cons_self _ _, Or.inr rfl⟩
      | stWaiting => exact Or.inl hstep
      | stOther => exact Or.inl hstep
    · exact Or.inr ⟨e, List.mem_cons_of_mem a he, hterm⟩

theorem step_ne_connecting {m : CompletionMode} (h : m ≠ .connecting) (e : NwEvent) :
    stateBlockStep m e ≠ .connecting := by
  cases e <;> simp [stateBlockStep] <;> exact h

theorem runBlocks_take_succ (evts : List NwEvent) (n : Nat) (h : n < evts.length) :
    runBlocks (evts.take (n + 1)) =
      stateBlockStep (runBlocks (evts.take n)) (evts.get ⟨n, h⟩) := by
  unfold runBlocks
  have ht : evts.take (n + 1) = evts.take n ++ [evts.get ⟨n, h⟩] := by
    rw [List.take_succ, List.getElem?_eq_getElem h]
    rfl
  rw [ht, List.foldl_append]
  rfl

theorem runBlocks_take_stable (evts : List NwEvent) (n : Nat) (h : ¬ n < evts.length) :
    runBlocks (evts.take (n + 1)) = runBlocks (evts.take n) := by
  have h₁ : evts.take (n + 1) = evts := List.take_of_length_le (by omega)
  have h₂ : evts.take n = evts := List.take_of_length_le (by omega)
  rw [h₁, h₂]

/-! ### Claim C5 -/

/-- C5: driven by the backend state-change blocks (under the backend contract
that `cancelled`/`failed` are terminal states), the completion flag only makes
the transitions `connecting → ready`, `connecting → closed`, `ready → closed`
(or stays put); once it is not `connecting` it never returns to `connecting`,
and `closed` is terminal. -/
theorem C5_completion_monotonic (evts : List NwEvent) (hT : TerminalLast evts) (n : Nat) :
    allowedTransition (runBlocks (evts.take n)) (runBlocks (evts.take (n + 1))) ∧
    (runBlocks (evts.take n) ≠ .connecting → runBlocks (evts.take (n + 1)) ≠ .connecting) ∧
    (runBlocks (evts.take n) = .closed → runBlocks (evts.take (n + 1)) = .closed) := by
  by_cases h : n < evts.length
  · have hstep := runBlocks_take_succ evts n h
    have hnotclosed : runBlocks (evts.take n) ≠ .closed := by
      intro hc
      rcases closed_has_terminal (evts.take n) .connecting hc with h₀ | ⟨e, he, hterm⟩
      · cases h₀
      · exact hT n h e he hterm
    refine ⟨?_, ?_, ?_⟩
    · rw [hstep]
      cases hget : evts.get ⟨n, h⟩ with
      | stReady =>
        cases hcur : runBlocks (evts.take n) with
        | connecting => exact Or.inr (Or.inl ⟨rfl, rfl⟩)
        | ready => exact Or.inl rfl
        | closed => exact absurd hcur hnotclosed
      | stCancelled =>
        cases hcur : runBlocks (evts.take n) with
        | connecting => exact Or.inr (Or.inr (Or.inl ⟨rfl, rfl⟩))
        | ready => exact Or.inr (Or.inr (Or.inr ⟨rfl, rfl⟩))
        | closed => exact absurd hcur hnotclosed
      | stFailed =>
        cases hcur : runBlocks (evts.take n) with
        | connecting => exact Or.inr (Or.inr (Or.inl ⟨rfl, rfl⟩))
        | ready => exact Or.inr (Or.inr (Or.inr ⟨rfl, rfl⟩))
        | closed => exact absurd hcur hnotclosed
      | stWaiting => exact Or.inl rfl
      | stOther => exact Or.inl rfl
    · intro hne
      rw [hstep]
      exact step_ne_connecting hne _
    · intro hc
      exact absurd hc hnotclosed
  · have hstep := runBlocks_take_stable evts n h
    rw [hstep]
    exact ⟨Or.inl rfl, fun hne => hne, fun hc => hc⟩

/-- C5 witness: a concrete well-formed backend trace (setup noise, then
`ready`, then `cancelled`) makes only allowed transitions. -/
theorem C5_witness :
    TerminalLast [NwEvent.stOther, NwEvent.stReady, NwEvent.stCancelled] ∧
    allowedTransition
      (runBlocks ([NwEvent.stOther, NwEvent.stReady, NwEvent.stCancelled].take 1))
      (runBlocks ([NwEvent.stOther, NwEvent.stReady, NwEvent.stCancelled].take 2)) := by
  have hT : TerminalLast [NwEvent.stOther, NwEvent.stReady, NwEvent.stCancelled] := by
    decide
  exact ⟨hT, (C5_completion_monotonic _ hT 1).1⟩

/-! ### `connection_completion::wait_for_completion` -/

/-- `nw_ws_common::nw_ws_connection_timeout_ms`. -/
def nw_ws_connection_timeout_ms : Nat := 400

/-- `connection_completion::completed()`: the loaded mode is not
`connecting`. -/
def completedMode (m : CompletionMode) : Bool := m ≠ CompletionMode.connecting

/-- The exit condition of the busy-wait loop in `wait_for_completion` at its
`n`-th poll.  `mode n` is the value `m_mode.load()` returns at the `n`-th
iteration and `clockAt n` the value of `clock::now()` there; `entryTime` is
`clock::now()` at entry, so `entryTime + timeOut` is `exit_time`.  With a
non-zero timeout the loop runs `while (!completed() && clock::now() <
exit_time)`; with timeout 0 it runs `while (!completed())`. -/
def waitExit (mode : Nat → CompletionMode) (clockAt : Nat → Nat)
    (timeOut entryTime n : Nat) : Bool :=
  if timeOut ≠ 0 then
    completedMode (mode n) || decide (entryTime + timeOut ≤ clockAt n)
  else
    completedMode (mode n)

/-! ### Claim C6 -/

/-- C6: `wait_for_completion` always returns once the state leaves
`connecting` (an exit poll exists no later than any completed poll); with a
positive timeout it terminates in every case provided the clock keeps
advancing — at the first exiting poll either `completed()` holds or the
deadline `entryTime + timeOut` has passed; with no timeout it exits exactly
at the polls where the state has left `connecting`. -/
theorem C6_wait_for_completion (mode : Nat → CompletionMode) (clockAt : Nat → Nat)
    (timeOut entryTime : Nat) :
    (0 < timeOut → (∀ T, ∃ n, T ≤ clockAt n) →
      ∃ n, waitExit mode clockAt timeOut entryTime n = true ∧
        (∀ m, m < n → waitExit mode clockAt timeOut entryTime m = false) ∧
        (completedMode (mode n) = true ∨ entryTime + timeOut ≤ clockAt n)) ∧
    (∀ k, completedMode (mode k) = true →
      ∃ n, n ≤ k ∧ waitExit mode clockAt timeOut entryTime n = true) ∧
    (∀ n, waitExit mode clockAt 0 entryTime n = true → completedMode (mode n) = true) := by
  refine ⟨?_, ?_, ?_⟩
  · intro hpos hclock
    obtain ⟨k, hk⟩ := hclock (entryTime + timeOut)
    have hex : ∃ n, waitExit mode clockAt timeOut entryTime n = true := by
      refine ⟨k, ?_⟩
      unfold waitExit
      rw [if_pos (by omega)]
      simp [hk]
    classical
    refine ⟨Nat.find hex, Nat.find_spec hex, ?_, ?_⟩
    · intro m hm
      have := Nat.find_min hex hm
      cases he : waitExit mode clockAt timeOut entryTime m with
      | false => rfl
      | true => exact absurd he this
    · have hspec := Nat.find_spec hex
      unfold waitExit at hspec
      rw [if_pos (by omega)] at hspec
      rcases Bool.or_eq_true_iff.mp hspec with h | h
      · exact Or.inl h
      · exact Or.inr (of_decide_eq_true h)
  · intro k hk
    refine ⟨k, Nat.le_refl k, ?_⟩
    unfold waitExit
    by_cases ht : timeOut ≠ 0
    · rw [if_pos ht]
      simp [hk]
    · rw [if_neg ht]
      exact hk
  · intro n hn
    unfold waitExit at hn
    simpa using hn

/-- A poll stream in which the backend completes at the third poll. -/
def wMode (n : Nat) : CompletionMode :=
  if n < 2 then CompletionMode.connecting else CompletionMode.ready

/-- A steadily advancing clock. -/
def wClock (n : Nat) : Nat := n

/-- C6 witness: with the source's 400 ms connection timeout and an advancing
clock, the wait loop has a first exiting poll. -/
theorem C6_witness :
    0 < nw_ws_connection_timeout_ms ∧
    (∃ n, waitExit wMode wClock nw_ws_connection_timeout_ms 0 n = true ∧
      (∀ m, m < n → waitExit wMode wClock nw_ws_connection_timeout_ms 0 m = false) ∧
      (completedMode (wMode n) = true ∨ 0 + nw_ws_connection_timeout_ms ≤ wClock n)) :=
  ⟨by decide,
   (C6_wait_for_completion wMode wClock nw_ws_connection_timeout_ms 0).1
     (by decide) (fun T => ⟨T, Nat.le_refl T⟩)⟩

/-! ### Claim C7 -/

/-- A freshly constructed client/server object: `m_handle` is its backend
handle, `none` modelling the null/invalid sentinel the constructor leaves on
internal failure (`ws_base::m_handle = nullptr`). -/
structure WsObject where
  handle : Option Nat
deriving DecidableEq

/-- `ws_base::create`: construct, then inspect `object->m_handle`; if it is
null, `delete object` and return `nullptr`, otherwise return the object.  The
Boolean records whether `delete` ran. -/
def ws_create (o : WsObject) : Option WsObject × Bool :=
  if o.handle.isNone then (none, true) else (some o, false)

/-- C7: `ws_base::create` returns null and destroys the freshly constructed
object exactly when the object's backend handle is the null sentinel; it never
returns an object with an invalid handle (and the object returned is the
constructed one, unmodified), and it never returns null while leaving the
object undestroyed. -/
theorem C7_create_valid (o : WsObject) :
    ((ws_create o).1 = none ↔ o.handle = none) ∧
    ((ws_create o).2 = true ↔ o.handle = none) ∧
    (∀ o', (ws_create o).1 = some o' → o' = o ∧ o'.handle.isSome = true) ∧
    ((ws_create o).1 = none → (ws_create o).2 = true) := by
  unfold ws_create
  cases ho : o.handle with
  | none =>
    simp [ho]
  | some v =>
    refine ⟨by simp [ho], by simp [ho], ?_, by simp [ho]⟩
    intro o' h
    simp only [ho, Option.isNone_some, Bool.false_eq_true, if_false] at h
    have : o' = o := (Option.some.inj h).symm
    exact ⟨this, by rw [this, ho]; rfl⟩

/-- C7 witness: a construction that leaves the handle null is destroyed and
reported as failure; a construction with a live handle is returned as-is. -/
theorem C7_witness :
    (ws_create (WsObject.mk none)).1 = none ∧
    (ws_create (WsObject.mk none)).2 = true ∧
    (WsObject.mk (some 5) = WsObject.mk (some 5) ∧
      (WsObject.mk (some 5)).handle.isSome = true) :=
  ⟨(C7_create_valid (WsObject.mk none)).1.mpr rfl,
   (C7_create_valid (WsObject.mk none)).2.1.mpr rfl,
   (C7_create_valid (WsObject.mk (some 5))).2.2.1 (WsObject.mk (some 5)) rfl⟩

/-! ### Claims C8 and C10: the send paths -/

/-- One invocation of the backend binary-frame write primitive
(`mg_websocket_write(conn, MG_WEBSOCKET_OPCODE_BINARY, data, size)` /
`nw_ws_common::send(connection, data, size)`).  `conn` is the native handle
passed, `none` modelling a null handle. -/
structure WriteCall where
  conn : Option Nat
  data : List Nat
deriving DecidableEq

/-- `cw_ws_server::send(const void *, size_t)` and
`nw_ws_server::send(const void *, size_t)`: iterate `m_map_from_id` and invoke
the write primitive on each `it->second` with the same buffer. -/
def broadcast_send (r : Registry) (data : List Nat) : List WriteCall :=
  r.fromId.map (fun p => ⟨some p.2, data⟩)

/-- `cw_ws_server::send(ws_connection_id, const void *, size_t)` and
`nw_ws_server::send(ws_connection_id, const void *, size_t)`: a single
unguarded invocation of the write primitive on `find(id)`. -/
def send_to (r : Registry) (i : Nat) (data : List Nat) : List WriteCall :=
  [⟨r.find_id i, data⟩]

theorem countP_snd_eq_one {l : List (Nat × Nat)} {i c : Nat}
    (hnd : l.Nodup) (hm : (i, c) ∈ l) (huniq : ∀ p ∈ l, p.2 = c → p = (i, c)) :
    l.countP (fun p => p.2 = c) = 1 := by
  induction l with
  | nil => cases hm
  | cons a t ih =>
    rw [List.nodup_cons] at hnd
    by_cases ha : a.2 = c
    · have haeq : a = (i, c) := huniq a (List.mem_cons_self a t) ha
      rw [List.countP_cons_of_pos _ _ (by simpa using ha)]
      have hz : t.countP (fun p => p.2 = c) = 0 := by
        rw [List.countP_eq_zero]
        intro p hp hpc
        have : p = (i, c) := huniq p (List.mem_cons_of_mem a hp) (by simpa using hpc)
        rw [this, ← haeq] at hp
        exact hnd.1 hp
      omega
    · rw [List.countP_cons_of_neg _ _ (by simpa using ha)]
      have hmt : (i, c) ∈ t := by
        rcases List.mem_cons.mp hm with he | ht
        · exact absurd (by rw [← he]) ha
        · exact ht
      exact ih hnd.2 hmt (fun p hp hpc => huniq p (List.mem_cons_of_mem a hp) hpc)

/-! ### Claim C8 -/

/-- C8: a server broadcast `send(data, len)` invokes the backend binary-frame
write primitive exactly once per registered connection, always with the same
buffer, never with a null handle, and never for a connection that is not (or
no longer) in the registry. -/
theorem C8_broadcast (r : Registry) (data : List Nat) (hInv : Inv r) :
    (∀ c i, (c, i) ∈ r.fromConn →
      (broadcast_send r data).countP (fun w => w.conn = some c) = 1) ∧
    (∀ c, r.registered c = false →
      ∀ w ∈ broadcast_send r data, w.conn ≠ some c) ∧
    (∀ w ∈ broadcast_send r data, w.data = data ∧ w.conn ≠ none) ∧
    (∀ c i, (c, i) ∈ r.fromConn →
      ∀ w ∈ broadcast_send (r.remove_connection c).reg data, w.conn ≠ some c) := by
  refine ⟨?_, ?_, ?_, ?_⟩
  · intro c i hm
    unfold broadcast_send
    rw [List.countP_map]
    have hcomp :
        ((fun w : WriteCall => decide (w.conn = some c)) ∘
          (fun p : Nat × Nat => ⟨some p.2, data⟩)) =
        (fun p : Nat × Nat => decide (p.2 = c)) := by
      funext p
      simp
    rw [hcomp]
    have hmi : (i, c) ∈ r.fromId := hInv.corrCI (c, i) hm
    apply countP_snd_eq_one (hInv.nodupI.of_map) hmi
    intro p hp hpc
    have hpconn : ((p.2 : Nat), p.1) ∈ r.fromConn := hInv.corrIC p hp
    rw [hpc] at hpconn
    have : p.1 = i := value_unique hInv.nodupC hpconn hm
    rw [← this, ← hpc]
  · intro c hfresh w hw hconn
    unfold broadcast_send at hw
    obtain ⟨p, hp, hpw⟩ := List.mem_map.mp hw
    have : some p.2 = some c := by rw [← hconn, ← hpw]
    have hpc : p.2 = c := Option.some.inj this
    have hpconn : ((p.2 : Nat), p.1) ∈ r.fromConn := hInv.corrIC p hp
    have : r.registered c = true := by
      rw [← hpc]
      unfold Registry.registered
      exact mapFind_isSome_iff.mpr ⟨(p.2, p.1), hpconn, rfl⟩
    rw [hfresh] at this
    cases this
  · intro w hw
    unfold broadcast_send at hw
    obtain ⟨p, _, hpw⟩ := List.mem_map.mp hw
    rw [← hpw]
    exact ⟨rfl, by simp⟩
  · intro c i hm w hw hconn
    obtain ⟨hfc, hfi, _⟩ := remove_maps hInv hm
    unfold broadcast_send at hw
    obtain ⟨p, hp, hpw⟩ := List.mem_map.mp hw
    have hpc : p.2 = c := Option.some.inj (by rw [← hconn, ← hpw])
    rw [hfi] at hp
    obtain ⟨hpl, hpne⟩ := mem_mapErase.mp hp
    have hpconn : ((p.2 : Nat), p.1) ∈ r.fromConn := hInv.corrIC p hpl
    rw [hpc] at hpconn
    exact hpne (value_unique hInv.nodupC hpconn hm)

/-- C8 witness: broadcasting to the concrete three-connection registry writes
exactly once to the connection with handle 10, and after removing handle 20 no
write targets 20. -/
theorem C8_witness :
    Inv sampleReg ∧ (10, 1) ∈ sampleReg.fromConn ∧ (20, 2) ∈ sampleReg.fromConn ∧
    (broadcast_send sampleReg [7, 8]).countP (fun w => w.conn = some 10) = 1 ∧
    (∀ w ∈ broadcast_send (sampleReg.remove_connection 20).reg [7, 8],
      w.conn ≠ some 20) := by
  have hInv : Inv sampleReg := by
    refine ⟨?_, ?_, ?_, ?_, ?_, ?_⟩ <;> decide
  have h := C8_broadcast sampleReg [7, 8] hInv
  exact ⟨hInv, by decide, by decide, h.1 10 1 (by decide), h.2.2.2 20 2 (by decide)⟩

/-! ### Claim C9 -/

/-- A primitive step performed by a server callback trampoline, in program
order. -/
inductive TStep
  | regAdd (c : Nat) (i : Nat)
  | regRemove (c : Nat) (i : Nat)
  | callConnect (i : Nat)
  | callClose (i : Nat)
deriving DecidableEq

/-- `cw_ws_server::cw_handlers::connect` / the `connection_block` of
`nw_ws_server`: first `add_connection(connection)`, then
`handlers.m_connect(id, owner)` with the id just allocated.  Returns the
registry as left for the handler together with the trampoline's step list in
program order. -/
def connect_trampoline (r : Registry) (c : Nat) : Registry × List TStep :=
  ((r.add_connection c).reg,
   [TStep.regAdd c (r.add_connection c).ret,
    TStep.callConnect (r.add_connection c).ret])

/-- `cw_ws_server::cw_handlers::close` / the cancelled/failed branch of the
`client_state_block` of `nw_ws_server`: first `remove_connection(connection)`,
then `handlers.m_close(id, owner)` with the id just freed. -/
def close_trampoline (r : Registry) (c : Nat) : Registry × List TStep :=
  ((r.remove_connection c).reg,
   [TStep.regRemove c (r.remove_connection c).ret,
    TStep.callClose (r.remove_connection c).ret])

/-- C9: for a freshly accepted native connection `cNew` — one not yet in the
registry — the connect trampoline registers it (obtaining the newly allocated
id) strictly before invoking the caller's connect handler with that same id,
so at handler-invocation time the connection is already registered under it;
for a registered connection `c` holding id `i`, the close trampoline
deregisters it first, then invokes the close handler with the id `i` that was
just freed, the connection being already deregistered at that point. -/
theorem C9_trampoline_order (r : Registry) (cNew c i : Nat) (hInv : Inv r)
    (hfresh : r.registered cNew = false) (hm : (c, i) ∈ r.fromConn) :
    ((connect_trampoline r cNew).2 =
      [TStep.regAdd cNew (r.add_connection cNew).ret,
       TStep.callConnect (r.add_connection cNew).ret] ∧
     (connect_trampoline r cNew).1.find_id (r.add_connection cNew).ret = some cNew ∧
     (connect_trampoline r cNew).1.find_conn cNew = (r.add_connection cNew).ret) ∧
    ((close_trampoline r c).2 = [TStep.regRemove c i, TStep.callClose i] ∧
     (close_trampoline r c).1.find_conn c = NOT_FOUND_ID) := by
  have hspec := C2_add_connection_spec r cNew
  have hrem := C3_remove_connection_spec r c i hInv hm
  refine ⟨⟨rfl, hspec.2.2.2.2.1, hspec.2.2.2.2.2⟩, ?_, ?_⟩
  · rw [← hrem.1]
    rfl
  · exact hrem.2.2.1

/-- C9 witness: at the concrete registry, accepting the fresh (unregistered)
connection with handle 40 and closing the registered connection with handle
20 (id 2). -/
theorem C9_witness :
    Inv sampleReg ∧ sampleReg.registered 40 = false ∧
    (20, 2) ∈ sampleReg.fromConn ∧
    (connect_trampoline sampleReg 40).2 =
      [TStep.regAdd 40 (sampleReg.add_connection 40).ret,
       TStep.callConnect (sampleReg.add_connection 40).ret] ∧
    (connect_trampoline sampleReg 40).1.find_id
      (sampleReg.add_connection 40).ret = some 40 ∧
    (close_trampoline sampleReg 20).2 =
      [TStep.regRemove 20 2, TStep.callClose 2] := by
  have hInv : Inv sampleReg := by
    refine ⟨?_, ?_, ?_, ?_, ?_, ?_⟩ <;> decide
  have hfresh : sampleReg.registered 40 = false := by decide
  have hm : (20, 2) ∈ sampleReg.fromConn := by decide
  have h := C9_trampoline_order sampleReg 40 20 2 hInv hfresh hm
  exact ⟨hInv, hfresh, hm, h.1.1, h.1.2.1, h.2.1⟩

/-! ### Claim C10 -/

/-- C10: the targeted `send(id, data, len)` has no guard: for an id absent
from the registry, `find(id)` yields the null handle and `send` still performs
exactly one write, forwarding that null handle to the backend write primitive
instead of failing or skipping. -/
theorem C10_send_unregistered (r : Registry) (i : Nat) (data : List Nat)
    (h : ∀ c, (i, c) ∉ r.fromId) :
    r.find_id i = none ∧
    send_to r i data = [⟨none, data⟩] := by
  have hnone : r.find_id i = none := by
    apply mapFind_eq_none_iff.mpr
    intro p hp he
    apply h p.2
    have hpeta : (p.1, p.2) ∈ r.fromId := by
      rw [Prod.mk.eta]
      exact hp
    rwa [he] at hpeta
  refine ⟨hnone, ?_⟩
  unfold send_to
  rw [hnone]

/-- C10 witness: sending to id 7 on the concrete registry (which holds only
ids 1, 2, 3) forwards a null handle to the write primitive. -/
theorem C10_witness :
    (∀ c, (7, c) ∉ sampleReg.fromId) ∧
    send_to sampleReg 7 [3, 4] = [⟨none, [3, 4]⟩] := by
  have h7 : ∀ c, (7, c) ∉ sampleReg.fromId := by
    intro c hc
    simp only [sampleReg, List.mem_cons, List.mem_singleton, Prod.mk.injEq] at hc
    rcases hc with ⟨h, _⟩ | ⟨h, _⟩ | ⟨h, _⟩ | h
    · cases h
    · cases h
    · cases h
    · cases h
  exact ⟨h7, (C10_send_unregistered sampleReg 7 [3, 4] h7).2⟩

end WsTools
